import Mathlib

/-!
Verification of the desugaring pass (`src/compiler/desugar.rs`) of the
passerine compiler.  The transformer itself is embedded faithfully from the
source; its external collaborators (spans, the `Syntax` error value, the
AST/CST data model, pattern lowering and the rule engine) live in other
files of the repository and are modelled from the specification, with the
rule engine kept abstract as a structure of functions.
-/

namespace Passerine

/-- Modelled from the spec: a `Span` is an opaque range over source text
(`common/span.rs` is not part of the sources under review).  We model it as a
closed interval of byte offsets. -/
structure Span where
  lo : Nat
  hi : Nat
deriving DecidableEq, Repr

/-- Modelled from the spec: `combine(a, b)` yields the smallest span covering
both. -/
def Span.combine (a b : Span) : Span := ⟨min a.lo b.lo, max a.hi b.hi⟩

/-- Modelled from the spec: `join(spans)` yields the smallest span covering
all.  On the empty list we return a degenerate empty span. -/
def Span.join : List Span → Span
  | [] => ⟨0, 0⟩
  | s :: rest => rest.foldl Span.combine s

/-- Modelled from the spec: the `Display` rendering of a span used inside the
macro-ambiguity message (the real renderer lives outside the sources under
review; only that it is a function of the span matters here). -/
def Span.display (s : Span) : String :=
  toString s.lo ++ "-" ++ toString s.hi ++ "\n"

/-- Modelled from the spec: a span-tagged tree node (`Spanned<T>`). -/
structure Spanned (α : Type) where
  item : α
  span : Span
deriving DecidableEq, Repr

/-- Modelled from the spec: a structured syntax error carrying a
human-readable message and a span. -/
structure Syntax where
  message : String
  span : Span
deriving DecidableEq, Repr

/-- Modelled from the spec: `Syntax::error(message, span)`. -/
def Syntax.error (message : String) (span : Span) : Syntax := ⟨message, span⟩

/-- Modelled from the spec: `Data` is an opaque literal value, passed through
unchanged; we model it by an arbitrary countable carrier. -/
abbrev Data := Nat

/-- Modelled from the spec: AST-level patterns.  The `chain` variant is the
multi-argument lambda sugar; `chain` is not representable in the CST. -/
inductive ASTPattern where
  | symbol (name : String)
  | data (d : Data)
  | chain (c : List (Spanned ASTPattern))

/-- Modelled from the spec: a macro argument pattern, containing
pseudokeywords and variable binders (its interpretation belongs to the rule
engine, which we keep abstract). -/
inductive ArgPat where
  | keyword (name : String)
  | symbol (name : String)
  | group (g : List (Spanned ArgPat))

/-- Modelled from the spec: the input AST, a span-tagged tagged union.  The
variant for a macro rule definition (`AST::Syntax` in the source) is named
`syntaxRule` here. -/
inductive AST where
  | symbol (name : String)
  | data (d : Data)
  | block (b : List (Spanned AST))
  | form (f : List (Spanned AST))
  | composition (argument : Spanned AST) (function : Spanned AST)
  | pattern (p : ASTPattern)
  | argPat (p : ArgPat)
  | syntaxRule (arg_pat : Spanned ArgPat) (expression : Spanned AST)
  | assign (pattern : Spanned ASTPattern) (expression : Spanned AST)
  | lambda (pattern : Spanned ASTPattern) (expression : Spanned AST)
  | print (e : Spanned AST)
  | label (n : String) (e : Spanned AST)

/-- Modelled from the spec: CST-level patterns, a strict subset of AST
patterns (no `chain`). -/
inductive CSTPattern where
  | symbol (name : String)
  | data (d : Data)
deriving DecidableEq, Repr

/-- Modelled from the spec: the output CST, in which `Call` is strictly
binary and `Lambda` strictly unary. -/
inductive CST where
  | symbol (name : String)
  | data (d : Data)
  | block (b : List (Spanned CST))
  | call (function : Spanned CST) (argument : Spanned CST)
  | assign (pattern : Spanned CSTPattern) (expression : Spanned CST)
  | lambda (pattern : Spanned CSTPattern) (expression : Spanned CST)
  | print (e : Spanned CST)
  | label (n : String) (e : Spanned CST)

/-- Modelled from the spec: the partial pattern lowering
`CSTPattern::try_from : ASTPattern -> Result<CSTPattern, String>`; it refuses
shapes the CST forbids, returning a descriptive error string. -/
def cstPatternTryFrom : ASTPattern → Except String CSTPattern
  | ASTPattern.symbol name => .ok (CSTPattern.symbol name)
  | ASTPattern.data d => .ok (CSTPattern.data d)
  | ASTPattern.chain _ => .error "A chain pattern can not be lowered to the CST"

/-- Modelled from the spec: one macro definition, an argument pattern plus a
template tree. -/
structure Rule where
  arg_pat : Spanned ArgPat
  tree : Spanned AST

/-- Modelled from the spec: the bindings produced by a successful macro
match (a map from variable names to captured subtrees). -/
abbrev Bindings := List (String × Spanned AST)

/-- The transformer state: an insertion-ordered list of span-tagged rules. -/
abbrev Rules := List (Spanned Rule)

/-- Modelled from the spec: the external rule engine (`compiler/rule.rs`),
kept abstract as a structure of functions.
`bind` takes the argument pattern and the reversed working copy of a form
and returns the match outcome together with the remaining (still reversed)
unconsumed tail, mirroring the `&mut Vec` calling convention of
`Rule::bind(arg_pat, reversed_form) -> Option<Result<Bindings, Syntax>>`. -/
structure RuleEngine where
  keywords : Spanned ArgPat → List String
  bindPat : Spanned ArgPat → List (Spanned AST) → Option (Except Syntax Bindings) × List (Spanned AST)
  expand : Spanned AST → Bindings → Except Syntax (Spanned AST)
  new : Spanned ArgPat → Spanned AST → Except Syntax Rule

/-- Outcome of running (a piece of) the desugarer: a value, a `Syntax`
error, a Rust panic (`unreachable!` / `unwrap`), or exhaustion of the fuel
that makes the macro-expansion recursion total in the embedding. -/
inductive Outcome (α : Type) where
  | ok : α → Outcome α
  | err : Syntax → Outcome α
  | panic : String → Outcome α
  | fuel : Outcome α

def Outcome.bind {α β : Type} : Outcome α → (α → Outcome β) → Outcome β
  | .ok a, k => k a
  | .err e, _ => .err e
  | .panic m, _ => .panic m
  | .fuel, _ => .fuel

/-- Companion definition for the currying claim, written from the spec's
words (section 4.5): fold right over the patterns, wrapping the body in one
unary CST lambda per pattern, the new node's span being the combine of the
pattern's span and the wrapped expression's span; lowering failures are
reported at the whole original pattern's span, innermost pattern first. -/
def currySpec (p_span : Span) : List (Spanned ASTPattern) → Spanned CST →
    Except Syntax (Spanned CST)
  | [], e => .ok e
  | p :: rest, e =>
    match currySpec p_span rest e with
    | .error er => .error er
    | .ok e' =>
      match cstPatternTryFrom p.item with
      | .error m => .error ( Syntax.error m p_span)
      | .ok cp => .ok ⟨CST.lambda ⟨cp, p.span⟩ e', Span.combine p.span e'.span⟩

/-- Modelled from the spec: `Spanned::build(&form)`, the combined span of a
sequence of spanned nodes. -/
def Spanned.build {α : Type} (f : List (Spanned α)) : Span :=
  Span.join (f.map fun e => e.span)

/-- The candidate-selection loop of `Transformer::form` (`desugar.rs`
lines 104-114): for each in-scope rule, bind its argument pattern against a
reversed working copy of the form; a rule is recorded iff binding returned
`Some` and the working copy is empty afterward; a `Some(Err(_))` under an
empty working copy aborts the loop with that error (the `bindings?` inside
the `push`). -/
def selectMatches (eng : RuleEngine) (form : List (Spanned AST)) :
    List (Spanned Rule) → Except Syntax (List (Spanned Rule × Bindings))
  | [] => .ok []
  | rule :: rest =>
    match eng.bindPat rule.item.arg_pat form.reverse with
    | (some possibility, reversed_remaining) =>
      if reversed_remaining.isEmpty then
        match possibility with
        | .error e => .error e
        | .ok bindings =>
          match selectMatches eng form rest with
          | .error e => .error e
          | .ok ms => .ok ((rule, bindings) :: ms)
      else selectMatches eng form rest
    | (none, _) => selectMatches eng form rest

/-- The macro-ambiguity message built in `Transformer::form` (`desugar.rs`
lines 120-131): it enumerates the matched rules by rendering their spans. -/
def ambiguityMessage (ms : List (Spanned Rule × Bindings)) : String :=
  "This form matched multiple macros:\n\n" ++
  String.join (ms.map fun s => Span.display s.1.span) ++
  "Note: A form may only match one macro, this must be unambiguious;\n" ++
  "Try using variable names different than those of pseudokeywords currently in scope,\n" ++
  "Adjusting the definitions of locally-defined macros,\n" ++
  "or using parenthesis \x27( ... )\x27 or curlies \x27\x7b ... \x7d\x27 to group nested macros"

/-- The pattern fold of `Transformer::lambda` (`desugar.rs` lines 175-181):
wrap the body in one CST lambda per pattern, consuming the given (already
reversed) argument list front to back; a lowering failure is reported at the
span of the whole original pattern. -/
def lambdaFold (p_span : Span) : List (Spanned ASTPattern) → Spanned CST →
    Except Syntax (Spanned CST)
  | [], expression => .ok expression
  | argument :: rest, expression =>
    match cstPatternTryFrom argument.item with
    | .error e => .error ( Syntax.error e p_span)
    | .ok cp =>
      lambdaFold p_span rest
        ⟨CST.lambda ⟨cp, argument.span⟩ expression,
         Span.combine argument.span expression.span⟩

/-- `Transformer::call` (`desugar.rs` lines 61-80) on the REVERSED form,
parameterized by the walker `wk` used on the elements.  The source recurses
by popping the last element of the form (`f.pop()`); to keep the recursion
structural we carry the form reversed, so popping the last element is taking
the head.  Length 0 and a non-symbol at length 1 are the two `unreachable!`
panics of the source; at length two the function is walked before the
argument; above two the argument (the head here, the last element of the
form) is walked first and the prefix is reduced recursively to a node
spanning the `join` of the prefix spans in source order.  `callAux` below
restates this on the un-reversed form, and the lemmas `callAux_nil`,
`callAux_single`, `callAux_pair` and `callAux_snoc` recover the exact
case-by-length shape of the source. -/
def callRevAux (wk : Rules → Spanned AST → Outcome (Spanned CST × Rules)) :
    Rules → List (Spanned AST) → Outcome (CST × Rules)
  | _, [] => .panic "A call must have at least two values - a function and an expression"
  | st, [x] =>
    match x.item with
    | AST.symbol name => .ok (CST.symbol name, st)
    | _ => .panic "A non-symbol call of length 1 is can not be constructed"
  | st, [arg, fn] =>
    (wk st fn).bind fun fc =>
      (wk fc.2 arg).bind fun ac =>
        .ok (CST.call fc.1 ac.1, ac.2)
  | st, arg :: y :: z :: rest =>
    (wk st arg).bind fun ac =>
      (callRevAux wk ac.2 (y :: z :: rest)).bind fun pc =>
        .ok (CST.call
              ⟨pc.1, Span.join (((y :: z :: rest).reverse).map fun e => e.span)⟩
              ac.1,
             pc.2)

/-- `Transformer::call` (`desugar.rs` lines 61-80): build up a call from a
flat form, turning `(a b c d)` into `(((a b) c) d)`. -/
def callAux (wk : Rules → Spanned AST → Outcome (Spanned CST × Rules))
    (st : Rules) (f : List (Spanned AST)) : Outcome (CST × Rules) :=
  callRevAux wk st f.reverse

/-- The element loop of `Transformer::block` (`desugar.rs` lines 149-156),
parameterized by the walker: walk the elements in order, threading the rule
state. -/
def walkListAux (wk : Rules → Spanned AST → Outcome (Spanned CST × Rules)) :
    Rules → List (Spanned AST) → Outcome (List (Spanned CST) × Rules)
  | st, [] => .ok ([], st)
  | st, e :: es =>
    (wk st e).bind fun c =>
      (walkListAux wk c.2 es).bind fun cs =>
        .ok (c.1 :: cs.1, cs.2)

/-- `Transformer::form` (`desugar.rs` lines 84-139), parameterized by the
walker used for re-expansion.  The pseudokeyword gather of lines 86-91 is
computed and discarded exactly as in the source (the `HashSet` is modelled
as a list; nothing reads it). -/
def formAux (eng : RuleEngine) (wk : Rules → Spanned AST → Outcome (Spanned CST × Rules))
    (st : Rules) (f : List (Spanned AST)) : Outcome (CST × Rules) :=
  let _keywords := st.foldl (fun acc r => acc ++ eng.keywords r.item.arg_pat) ([] : List String)
  match selectMatches eng f st with
  | .error e => .err e
  | .ok ms =>
    if ms.length = 0 then callAux wk st f
    else if ms.length > 1 then
      .err ( Syntax.error (ambiguityMessage ms) (Spanned.build f))
    else
      match ms.getLast? with
      | none => .panic "called Option::unwrap on a None value"
      | some (rule, bindings) =>
        match eng.expand rule.item.tree bindings with
        | .error e => .err e
        | .ok expanded => (wk st expanded).bind fun p => .ok (p.1.item, p.2)

/-- `Transformer::walk` (`desugar.rs` lines 36-53) together with the inlined
bodies of `symbol`, `composition`, `rule`, `assign` and `lambda`, indexed by
fuel.  One unit of fuel is consumed per `walk` entry, so any run of the Rust
code that terminates is reproduced at a large enough fuel; macro
re-expansion (the only unbounded recursion of the source) is what the fuel
bounds. -/
def walk (eng : RuleEngine) : Nat → Rules → Spanned AST → Outcome (Spanned CST × Rules)
  | 0, _, _ => .fuel
  | n + 1, st, ast =>
    ((match ast.item with
     | AST.symbol _ => formAux eng (walk eng n) st [ast]
     | AST.data d => .ok (CST.data d, st)
     | AST.block b =>
       (walkListAux (walk eng n) st b).bind fun p => .ok (CST.block p.1, p.2)
     | AST.form f => formAux eng (walk eng n) st f
     | AST.composition argument function =>
       (walk eng n st function).bind fun fc =>
         (walk eng n fc.2 argument).bind fun ac =>
           .ok (CST.call fc.1 ac.1, ac.2)
     | AST.pattern _ => .err ( Syntax.error "Unexpected pattern" ast.span)
     | AST.argPat _ => .err ( Syntax.error "Unexpected argument pattern" ast.span)
     | AST.syntaxRule arg_pat expression =>
       (match eng.new arg_pat expression with
        | .error e => .err e
        | .ok r => .ok (CST.block [], st ++ [⟨r, arg_pat.span⟩]))
     | AST.assign pattern expression =>
       (match cstPatternTryFrom pattern.item with
        | .error e => .err ( Syntax.error e pattern.span)
        | .ok cp =>
          (walk eng n st expression).bind fun ec =>
            .ok (CST.assign ⟨cp, pattern.span⟩ ec.1, ec.2))
     | AST.lambda pattern expression =>
       (walk eng n st expression).bind fun ec =>
         (match lambdaFold pattern.span
             ((match pattern.item with
               | ASTPattern.chain c => c
               | _ => [pattern]).reverse) ec.1 with
          | .error e => .err e
          | .ok le => .ok (le.item, ec.2))
     | AST.print e =>
       (walk eng n st e).bind fun c => .ok (CST.print c.1, c.2)
     | AST.label nm e =>
       (walk eng n st e).bind fun c => .ok (CST.label nm c.1, c.2)
    ) : Outcome (CST × Rules)).bind fun p => .ok ((⟨p.1, ast.span⟩ : Spanned CST), p.2)

/-- `Transformer::form` with the walker instantiated to the program's own
walker at fuel `n`. -/
def form (eng : RuleEngine) (n : Nat) (st : Rules) (f : List (Spanned AST)) :
    Outcome (CST × Rules) :=
  formAux eng (walk eng n) st f

/-- `Transformer::call` with the walker instantiated to the program's own
walker at fuel `n`. -/
def call (eng : RuleEngine) (n : Nat) (st : Rules) (f : List (Spanned AST)) :
    Outcome (CST × Rules) :=
  callAux (walk eng n) st f

/-- The element loop of `Transformer::block` with the program's walker. -/
def walkList (eng : RuleEngine) (n : Nat) (st : Rules) (es : List (Spanned AST)) :
    Outcome (List (Spanned CST) × Rules) :=
  walkListAux (walk eng n) st es

/-- The public entry point `desugar` (`desugar.rs` lines 17-21): run a fresh
transformer (empty rule list) over the tree. -/
def desugar (eng : RuleEngine) (fuel : Nat) (ast : Spanned AST) : Outcome (Spanned CST) :=
  (walk eng fuel [] ast).bind fun p => .ok p.1

/-- Companion definition for the call-building claim: walk the elements of a
(reversed) form in exactly the order the call builder visits them — the last
element of the form first, down to the final pair, which is walked function
first — returning the walked nodes in source order.  The input list is the
reversed form, mirroring `callRevAux`. -/
def walkElemsRev (wk : Rules → Spanned AST → Outcome (Spanned CST × Rules)) :
    Rules → List (Spanned AST) → Outcome (List (Spanned CST) × Rules)
  | st, [] => .ok ([], st)
  | st, [x] => (wk st x).bind fun c => .ok ([c.1], c.2)
  | st, [arg, fn] =>
    (wk st fn).bind fun fc =>
      (wk fc.2 arg).bind fun ac => .ok ([fc.1, ac.1], ac.2)
  | st, arg :: y :: z :: rest =>
    (wk st arg).bind fun ac =>
      (walkElemsRev wk ac.2 (y :: z :: rest)).bind fun cs =>
        .ok (cs.1 ++ [ac.1], cs.2)

/-- Companion definition for the call-building claim: walk the elements of a
form in the call builder's visiting order, returning them in source order. -/
def walkCallElems (wk : Rules → Spanned AST → Outcome (Spanned CST × Rules))
    (st : Rules) (f : List (Spanned AST)) : Outcome (List (Spanned CST) × Rules) :=
  walkElemsRev wk st f.reverse

/-- Companion definition for the call-building claim, written from the
spec's words (section 4.3): left-associate the walked elements into nested
binary `Call` nodes, each synthetic prefix node's span being the `join` of
the source spans of the prefix elements.  The input pairs each element's
source span with its walked node, in REVERSE source order (last element
first), so the recursion is structural. -/
def assembleCallRev : List (Span × Spanned CST) → CST
  | [] => CST.block []
  | [p] => p.2.item
  | p :: q :: rest =>
    CST.call
      ⟨assembleCallRev (q :: rest), Span.join (((q :: rest).reverse).map Prod.fst)⟩
      p.2

/-- Shorthand span for concrete test inputs. -/
def sp (n : Nat) : Span := ⟨n, n⟩

/-- Shorthand spanned symbol for concrete test inputs. -/
def sym (s : String) (n : Nat) : Spanned AST := ⟨AST.symbol s, sp n⟩

/-- Concrete rule engine whose patterns never apply: every bind is
structurally inapplicable. -/
def engTriv : RuleEngine :=
  { keywords := fun _ => []
    bindPat := fun _ ts => (none, ts)
    expand := fun t _ => .ok t
    new := fun ap t => .ok ⟨ap, t⟩ }

/-- Concrete rule engine implementing one nullary macro: the argument
pattern `keyword "k"` fully matches the one-element form `[Symbol "k"]`;
expansion substitutes nothing and returns the template unchanged. -/
def engNullary : RuleEngine :=
  { keywords := fun _ => ["k"]
    bindPat := fun ap ts =>
      match ap.item, ts with
      | ArgPat.keyword "k", [⟨AST.symbol "k", _⟩] => (some (.ok []), [])
      | _, _ => (none, ts)
    expand := fun t _ => .ok t
    new := fun ap t => .ok ⟨ap, t⟩ }

/-- A concrete syntax error used by the engines below. -/
def malformedErr : Syntax := ⟨"malformed macro invocation", sp 9⟩

/-- Concrete rule engine whose bind reports a matched-but-malformed attempt
(`Some(Err(..))`) on every two-element form while leaving one unconsumed
token in the working copy. -/
def engSkipErr : RuleEngine :=
  { keywords := fun _ => []
    bindPat := fun _ ts =>
      match ts with
      | [_, b] => (some (.error malformedErr), [b])
      | ts => (none, ts)
    expand := fun t _ => .ok t
    new := fun ap t => .ok ⟨ap, t⟩ }

/-- Concrete rule engine whose bind reports a matched-but-malformed attempt
(`Some(Err(..))`) with the working copy fully consumed. -/
def engErrAll : RuleEngine :=
  { keywords := fun _ => []
    bindPat := fun _ _ => (some (.error malformedErr), [])
    expand := fun t _ => .ok t
    new := fun ap t => .ok ⟨ap, t⟩ }

/-- Concrete rule: the nullary macro `k => Data 7` as stored by the
transformer (the span recorded with a rule is its argument pattern's span). -/
def ruleK : Spanned Rule := ⟨⟨⟨ArgPat.keyword "k", sp 1⟩, ⟨AST.data 7, sp 2⟩⟩, sp 1⟩

/-- Concrete rule definition node for the nullary macro `k => Data 7`. -/
def synK : Spanned AST :=
  ⟨AST.syntaxRule ⟨ArgPat.keyword "k", sp 1⟩ ⟨AST.data 7, sp 2⟩, sp 3⟩

@[simp] theorem Outcome.bind_ok {α β : Type} (a : α) (k : α → Outcome β) :
    Outcome.bind (.ok a) k = k a := rfl

@[simp] theorem Outcome.bind_err {α β : Type} (e : Syntax) (k : α → Outcome β) :
    Outcome.bind (.err e) k = .err e := rfl

@[simp] theorem Outcome.bind_panic {α β : Type} (m : String) (k : α → Outcome β) :
    Outcome.bind (.panic m) k = .panic m := rfl

@[simp] theorem Outcome.bind_fuel {α β : Type} (k : α → Outcome β) :
    Outcome.bind .fuel k = Outcome.fuel := rfl

theorem Outcome.bind_assoc {α β γ : Type} (x : Outcome α) (f : α → Outcome β)
    (g : β → Outcome γ) :
    (x.bind f).bind g = x.bind fun a => (f a).bind g := by
  cases x <;> rfl

theorem bind_wrap_span {X : Outcome (CST × Rules)} {s : Span} {q : Spanned CST × Rules}
    (h : (X.bind fun p => Outcome.ok ((⟨p.1, s⟩ : Spanned CST), p.2)) = .ok q) :
    q.1.span = s := by
  cases X with
  | ok a => injection h with h1; subst h1; rfl
  | err e => exact nomatch h
  | panic m => exact nomatch h
  | fuel => exact nomatch h

/-- Every CST node the walker returns carries the span of the AST node it was
derived from (`desugar.rs` line 52). -/
theorem walk_span (eng : RuleEngine) (n : Nat) (st : Rules) (a : Spanned AST)
    (p : Spanned CST × Rules) (h : walk eng n st a = .ok p) : p.1.span = a.span := by
  cases n with
  | zero => exact nomatch h
  | succ n => exact bind_wrap_span h

/-- Claim C1: for a non-empty form the form reducer dispatches on the number
of full-match candidates: zero candidates fall through to the call builder;
exactly one expands the rule's template with the returned bindings, walks
the expanded AST and returns its inner CST; two or more fail with the
macro-ambiguity error, whose span is the combined span of the form's
elements. -/
theorem form_candidate_dispatch (eng : RuleEngine) (n : Nat) (st : Rules)
    (f : List (Spanned AST)) (_hne : f ≠ [])
    (ms : List (Spanned Rule × Bindings)) (hms : selectMatches eng f st = .ok ms) :
    (ms = [] → form eng n st f = call eng n st f)
    ∧ (∀ r b, ms = [(r, b)] →
        form eng n st f =
          match eng.expand r.item.tree b with
          | .error e => .err e
          | .ok expanded => (walk eng n st expanded).bind fun p => .ok (p.1.item, p.2))
    ∧ (2 ≤ ms.length →
        form eng n st f = .err ( Syntax.error (ambiguityMessage ms) (Spanned.build f))) := by
  refine ⟨?_, ?_, ?_⟩
  · intro h; subst h
    simp [form, formAux, hms, call]
  · intro r b h; subst h
    simp [form, formAux, hms, List.getLast?]
  · intro h
    have h0 : ¬ ms.length = 0 := by omega
    have h1 : ms.length > 1 := by omega
    simp [form, formAux, hms, h0, h1]

/-- Witness for the candidate-dispatch theorem: a concrete one-element form
with no candidate falls through to the call builder. -/
theorem form_candidate_dispatch_witness :
    ([sym "a" 1] ≠ ([] : List (Spanned AST)))
    ∧ selectMatches engTriv [sym "a" 1] [] = .ok []
    ∧ form engTriv 2 [] [sym "a" 1] = call engTriv 2 [] [sym "a" 1] :=
  ⟨by simp, rfl,
   (form_candidate_dispatch engTriv 2 [] [sym "a" 1] (by simp) [] rfl).1 rfl⟩

/-- Claim C9: a bare symbol in expression position is wrapped into a
one-element form and sent through the form reducer; consequently, when the
rule list yields exactly one full-match candidate on that one-element form,
the reducer takes the expansion path instead of producing the plain
symbol. -/
theorem symbol_funnels_through_form (eng : RuleEngine) (n : Nat) (st : Rules)
    (name : String) (s : Span) :
    (walk eng (n + 1) st ⟨AST.symbol name, s⟩
      = (form eng n st [⟨AST.symbol name, s⟩]).bind fun p =>
          .ok ((⟨p.1, s⟩ : Spanned CST), p.2))
    ∧ (∀ r b, selectMatches eng [⟨AST.symbol name, s⟩] st = .ok [(r, b)] →
        form eng n st [⟨AST.symbol name, s⟩]
          = match eng.expand r.item.tree b with
            | .error e => .err e
            | .ok expanded => (walk eng n st expanded).bind fun p => .ok (p.1.item, p.2)) := by
  constructor
  · rfl
  · intro r b h
    simp [form, formAux, h, List.getLast?]

/-- Witness for the symbol-funnel theorem: the bare symbol `k` under the
concrete nullary rule `k => Data 7` goes down the expansion path. -/
theorem symbol_funnels_through_form_witness :
    selectMatches engNullary [sym "k" 4] [ruleK] = .ok [(ruleK, [])]
    ∧ form engNullary 3 [ruleK] [sym "k" 4]
        = match engNullary.expand ruleK.item.tree [] with
          | .error e => .err e
          | .ok expanded =>
            (walk engNullary 3 [ruleK] expanded).bind fun p => .ok (p.1.item, p.2) :=
  ⟨rfl, (symbol_funnels_through_form engNullary 3 [ruleK] "k" (sp 4)).2 ruleK [] rfl⟩

/-- Claim C6: desugaring a composition node yields the same inner CST as
desugaring the two-element form `[function, argument]` (both walk the
function first and emit one binary call), and the chain `c |> b |> a`,
parsed left-associatively, desugars to `Call(a, Call(b, c))`. -/
theorem composition_form_law :
    (∀ (eng : RuleEngine) (n : Nat) (a f : Spanned AST) (s₁ s₂ : Span),
      (desugar eng (n + 1) ⟨AST.composition a f, s₁⟩).bind (fun c => Outcome.ok c.item)
        = (desugar eng (n + 1) ⟨AST.form [f, a], s₂⟩).bind (fun c => Outcome.ok c.item))
    ∧ desugar engTriv 5
        ⟨AST.composition ⟨AST.composition (sym "c" 3) (sym "b" 2), sp 9⟩ (sym "a" 1), sp 0⟩
        = .ok ⟨CST.call ⟨CST.symbol "a", sp 1⟩
            ⟨CST.call ⟨CST.symbol "b", sp 2⟩ ⟨CST.symbol "c", sp 3⟩, sp 9⟩, sp 0⟩ := by
  constructor
  · intro eng n a f s₁ s₂
    have key : ∀ (X : Outcome (CST × Rules)) (t₁ t₂ : Span),
        ((((X.bind fun p => Outcome.ok ((⟨p.1, t₁⟩ : Spanned CST), p.2)).bind
            fun p => Outcome.ok p.1).bind) fun c => Outcome.ok c.item)
          = ((((X.bind fun p => Outcome.ok ((⟨p.1, t₂⟩ : Spanned CST), p.2)).bind
              fun p => Outcome.ok p.1).bind) fun c => Outcome.ok c.item) := by
      intro X t₁ t₂; cases X <;> rfl
    exact key _ s₁ s₂
  · rfl

/-- Claim C8 (amended): a rule definition node and an empty block desugar to
the same CST value — an empty `Block` carrying the node's span — whenever
rule construction succeeds; the two differ only in the side effect on the
rule list. -/
theorem rule_value_idempotence (eng : RuleEngine) (n : Nat) (st : Rules)
    (ap : Spanned ArgPat) (tree : Spanned AST) (s : Span) (rl : Rule)
    (h : eng.new ap tree = .ok rl) :
    (walk eng (n + 1) st ⟨AST.syntaxRule ap tree, s⟩).bind (fun p => Outcome.ok p.1)
      = .ok ⟨CST.block [], s⟩
    ∧ (walk eng (n + 1) st ⟨AST.block [], s⟩).bind (fun p => Outcome.ok p.1)
      = .ok ⟨CST.block [], s⟩ := by
  constructor
  · simp [walk, h]
  · rfl

/-- Witness for the amended rule-value theorem at a concrete rule
definition. -/
theorem rule_value_idempotence_witness :
    engTriv.new ⟨ArgPat.keyword "k", sp 1⟩ ⟨AST.data 7, sp 2⟩
      = .ok ⟨⟨ArgPat.keyword "k", sp 1⟩, ⟨AST.data 7, sp 2⟩⟩
    ∧ (walk engTriv 1 [] ⟨AST.syntaxRule ⟨ArgPat.keyword "k", sp 1⟩ ⟨AST.data 7, sp 2⟩, sp 3⟩).bind
        (fun p => Outcome.ok p.1) = .ok ⟨CST.block [], sp 3⟩ :=
  ⟨rfl,
   (rule_value_idempotence engTriv 0 [] ⟨ArgPat.keyword "k", sp 1⟩ ⟨AST.data 7, sp 2⟩ (sp 3)
     ⟨⟨ArgPat.keyword "k", sp 1⟩, ⟨AST.data 7, sp 2⟩⟩ rfl).1⟩

/-- Counterexample to claim C8 as stated: in the block
`[Syntax(k => Data 7), Symbol k]` the later bare `k` expands through the
rule, while after replacing the rule definition subtree with an empty block
the rule is out of scope and `k` stays a symbol, so the two ASTs desugar to
different CSTs. -/
theorem rule_replacement_changes_cst :
    desugar engNullary 8 ⟨AST.block [synK, sym "k" 4], sp 0⟩
      = .ok ⟨CST.block [⟨CST.block [], sp 3⟩, ⟨CST.data 7, sp 4⟩], sp 0⟩
    ∧ desugar engNullary 8 ⟨AST.block [⟨AST.block [], sp 3⟩, sym "k" 4], sp 0⟩
      = .ok ⟨CST.block [⟨CST.block [], sp 3⟩, ⟨CST.symbol "k", sp 4⟩], sp 0⟩
    ∧ (Outcome.ok (⟨CST.block [⟨CST.block [], sp 3⟩, ⟨CST.data 7, sp 4⟩], sp 0⟩ : Spanned CST)
        ≠ .ok (⟨CST.block [⟨CST.block [], sp 3⟩, ⟨CST.symbol "k", sp 4⟩], sp 0⟩ : Spanned CST)) := by
  refine ⟨rfl, rfl, ?_⟩
  intro h
  injection h with h1
  injection h1 with h2 _
  injection h2 with h3
  injection h3 with _ h4
  injection h4 with h5 _
  injection h5 with h6 _
  exact nomatch h6

/-- Soundness half of candidate selection: every recorded candidate comes
from an in-scope rule whose bind returned a successful result with the
reversed working copy empty afterward. -/
theorem selectMatches_mem (eng : RuleEngine) (f : List (Spanned AST)) :
    ∀ (rules : Rules) (ms : List (Spanned Rule × Bindings)),
      selectMatches eng f rules = .ok ms →
      ∀ (r : Spanned Rule) (b : Bindings), (r, b) ∈ ms →
        r ∈ rules ∧ eng.bindPat r.item.arg_pat f.reverse = (some (.ok b), []) := by
  intro rules
  induction rules with
  | nil =>
    intro ms h r b hm
    rw [selectMatches] at h
    injection h with h'
    subst h'
    exact absurd hm (List.not_mem_nil _)
  | cons rule rest ih =>
    intro ms h r b hm
    rcases hb : eng.bindPat rule.item.arg_pat f.reverse with ⟨opt, rem⟩
    cases opt with
    | none =>
      simp only [selectMatches, hb] at h
      obtain ⟨hr, hbind⟩ := ih ms h r b hm
      exact ⟨List.mem_cons_of_mem _ hr, hbind⟩
    | some poss =>
      by_cases hrem : rem.isEmpty
      · cases poss with
        | error e =>
          simp only [selectMatches, hb, if_pos hrem] at h
          exact nomatch h
        | ok bs =>
          simp only [selectMatches, hb, if_pos hrem] at h
          cases hrest : selectMatches eng f rest with
          | error e => rw [hrest] at h; exact nomatch h
          | ok ms' =>
            rw [hrest] at h
            injection h with h'
            subst h'
            rcases List.mem_cons.mp hm with heq | htail
            · injection heq with heq1 heq2
              subst heq1; subst heq2
              refine ⟨List.mem_cons_self _ _, ?_⟩
              rw [hb, List.isEmpty_iff.mp hrem]
            · obtain ⟨hr, hbind⟩ := ih ms' hrest r b htail
              exact ⟨List.mem_cons_of_mem _ hr, hbind⟩
      · simp only [selectMatches, hb, if_neg hrem] at h
        obtain ⟨hr, hbind⟩ := ih ms h r b hm
        exact ⟨List.mem_cons_of_mem _ hr, hbind⟩

/-- Completeness half of candidate selection: when selection succeeds, every
in-scope rule whose bind fully consumed the reversed working copy appears
among the recorded candidates with its bindings. -/
theorem selectMatches_complete (eng : RuleEngine) (f : List (Spanned AST)) :
    ∀ (rules : Rules) (ms : List (Spanned Rule × Bindings)),
      selectMatches eng f rules = .ok ms →
      ∀ (r : Spanned Rule) (b : Bindings), r ∈ rules →
        eng.bindPat r.item.arg_pat f.reverse = (some (.ok b), []) →
        (r, b) ∈ ms := by
  intro rules
  induction rules with
  | nil =>
    intro ms h r b hr
    exact absurd hr (List.not_mem_nil _)
  | cons rule rest ih =>
    intro ms h r b hr hbind
    rcases List.mem_cons.mp hr with heq | htail
    · subst heq
      simp only [selectMatches, hbind, List.isEmpty_nil, if_pos] at h
      cases hrest : selectMatches eng f rest with
      | error e => rw [hrest] at h; exact nomatch h
      | ok ms' =>
        rw [hrest] at h
        injection h with h'
        subst h'
        exact List.mem_cons_self _ _
    · rcases hb : eng.bindPat rule.item.arg_pat f.reverse with ⟨opt, rem⟩
      cases opt with
      | none =>
        simp only [selectMatches, hb] at h
        exact ih ms h r b htail hbind
      | some poss =>
        by_cases hrem : rem.isEmpty
        · cases poss with
          | error e =>
            simp only [selectMatches, hb, if_pos hrem] at h
            exact nomatch h
          | ok bs =>
            simp only [selectMatches, hb, if_pos hrem] at h
            cases hrest : selectMatches eng f rest with
            | error e => rw [hrest] at h; exact nomatch h
            | ok ms' =>
              rw [hrest] at h
              injection h with h'
              subst h'
              exact List.mem_cons_of_mem _ (ih ms' hrest r b htail hbind)
        · simp only [selectMatches, hb, if_neg hrem] at h
          exact ih ms h r b htail hbind

/-- Claim C2: a rule counts as a full-match candidate of the form reducer
iff it is in scope and `Rule::bind` of its argument pattern against the
reversed working copy of the form returns a successful result with the
working copy empty afterward; a bind that succeeds but leaves unconsumed
tokens contributes no candidate. -/
theorem candidate_iff (eng : RuleEngine) (f : List (Spanned AST)) (rules : Rules)
    (ms : List (Spanned Rule × Bindings)) (h : selectMatches eng f rules = .ok ms)
    (r : Spanned Rule) (b : Bindings) :
    (r, b) ∈ ms ↔
      r ∈ rules ∧ eng.bindPat r.item.arg_pat f.reverse = (some (.ok b), []) :=
  ⟨fun hm => selectMatches_mem eng f rules ms h r b hm,
   fun hrb => selectMatches_complete eng f rules ms h r b hrb.1 hrb.2⟩

/-- Witness for the candidate characterization at the concrete nullary
macro. -/
theorem candidate_iff_witness :
    selectMatches engNullary [sym "k" 4] [ruleK] = .ok [(ruleK, [])]
    ∧ ((ruleK, ([] : Bindings)) ∈ [(ruleK, ([] : Bindings))] ↔
        ruleK ∈ [ruleK]
        ∧ engNullary.bindPat ruleK.item.arg_pat ([sym "k" 4].reverse)
            = (some (.ok []), [])) :=
  ⟨rfl, candidate_iff engNullary [sym "k" 4] [ruleK] [(ruleK, [])] rfl ruleK []⟩

/-- When some in-scope rule's bind reports `Some(Err(_))` with the reversed
working copy empty, candidate selection aborts with the bind error of the
FIRST such rule in scope order: the rule list splits as `pre ++ r' :: post`
where no rule of `pre` reports a fully-consumed `Some(Err(_))`, and the
returned error is `r'`'s. -/
theorem selectMatches_err (eng : RuleEngine) (f : List (Spanned AST)) :
    ∀ (rules : Rules) (r : Spanned Rule) (e : Syntax), r ∈ rules →
      eng.bindPat r.item.arg_pat f.reverse = (some (.error e), []) →
      ∃ (pre : Rules) (r' : Spanned Rule) (e' : Syntax) (post : Rules),
        rules = pre ++ r' :: post
        ∧ (∀ q ∈ pre, ∀ e₀,
            eng.bindPat q.item.arg_pat f.reverse ≠ (some (.error e₀), []))
        ∧ eng.bindPat r'.item.arg_pat f.reverse = (some (.error e'), [])
        ∧ selectMatches eng f rules = .error e' := by
  intro rules
  induction rules with
  | nil =>
    intro r e hr
    exact absurd hr (List.not_mem_nil _)
  | cons rule rest ih =>
    intro r e hr hbind
    rcases hb : eng.bindPat rule.item.arg_pat f.reverse with ⟨opt, rem⟩
    cases opt with
    | none =>
      have hhead : ∀ e₀,
          eng.bindPat rule.item.arg_pat f.reverse ≠ (some (.error e₀), []) := by
        intro e₀ hcontra
        rw [hb] at hcontra
        injection hcontra with h1 _
        exact nomatch h1
      have htail : r ∈ rest := by
        rcases List.mem_cons.mp hr with heq | ht
        · subst heq; rw [hbind] at hb; injection hb with hb1; exact nomatch hb1
        · exact ht
      obtain ⟨pre, r', e', post, hsplit, hpre, hb', hsel⟩ := ih r e htail hbind
      refine ⟨rule :: pre, r', e', post, by rw [hsplit]; rfl, ?_, hb', ?_⟩
      · intro q hq e₀
        rcases List.mem_cons.mp hq with heq | hq'
        · subst heq; exact hhead e₀
        · exact hpre q hq' e₀
      · simp only [selectMatches, hb]
        exact hsel
    | some poss =>
      by_cases hrem : rem.isEmpty
      · cases poss with
        | error e₀ =>
          refine ⟨[], rule, e₀, rest, rfl, ?_, ?_, ?_⟩
          · intro q hq; exact absurd hq (List.not_mem_nil _)
          · rw [hb, List.isEmpty_iff.mp hrem]
          · simp only [selectMatches, hb, if_pos hrem]
        | ok bs =>
          have hhead : ∀ e₀,
              eng.bindPat rule.item.arg_pat f.reverse ≠ (some (.error e₀), []) := by
            intro e₀ hcontra
            rw [hb] at hcontra
            injection hcontra with h1 _
            injection h1 with h2
            exact nomatch h2
          have htail : r ∈ rest := by
            rcases List.mem_cons.mp hr with heq | ht
            · subst heq
              rw [hbind] at hb
              injection hb with hb1
              injection hb1 with hb2
              exact nomatch hb2
            · exact ht
          obtain ⟨pre, r', e', post, hsplit, hpre, hb', hsel⟩ := ih r e htail hbind
          refine ⟨rule :: pre, r', e', post, by rw [hsplit]; rfl, ?_, hb', ?_⟩
          · intro q hq e₀
            rcases List.mem_cons.mp hq with heq | hq'
            · subst heq; exact hhead e₀
            · exact hpre q hq' e₀
          · simp only [selectMatches, hb, if_pos hrem, hsel]
      · have hhead : ∀ e₀,
            eng.bindPat rule.item.arg_pat f.reverse ≠ (some (.error e₀), []) := by
          intro e₀ hcontra
          rw [hb] at hcontra
          injection hcontra with _ h2
          rw [h2] at hrem
          exact absurd List.isEmpty_nil hrem
        have htail : r ∈ rest := by
          rcases List.mem_cons.mp hr with heq | ht
          · subst heq
            rw [hbind] at hb
            injection hb with hb1 hb2
            rw [← hb2] at hrem
            exact absurd List.isEmpty_nil hrem
          · exact ht
        obtain ⟨pre, r', e', post, hsplit, hpre, hb', hsel⟩ := ih r e htail hbind
        refine ⟨rule :: pre, r', e', post, by rw [hsplit]; rfl, ?_, hb', ?_⟩
        · intro q hq e₀
          rcases List.mem_cons.mp hq with heq | hq'
          · subst heq; exact hhead e₀
          · exact hpre q hq' e₀
        · simp only [selectMatches, hb, if_neg hrem]
          exact hsel

/-- Claim C3 (amended): whenever some in-scope rule's bind on the reversed
working copy of the form returns a matched-but-malformed `Some(Err(_))` AND
leaves the working copy empty, the form reducer fails, propagating verbatim
the bind error of the FIRST such rule in scope order: the rule list splits
as `pre ++ r' :: post` with no rule of `pre` reporting a fully-consumed
`Some(Err(_))`, and the reducer returns exactly the bind error of `r'`. -/
theorem bind_error_propagates (eng : RuleEngine) (n : Nat) (st : Rules)
    (f : List (Spanned AST)) (r : Spanned Rule) (e : Syntax)
    (hr : r ∈ st)
    (hbind : eng.bindPat r.item.arg_pat f.reverse = (some (.error e), [])) :
    ∃ (pre : Rules) (r' : Spanned Rule) (e' : Syntax) (post : Rules),
      st = pre ++ r' :: post
      ∧ (∀ q ∈ pre, ∀ e₀,
          eng.bindPat q.item.arg_pat f.reverse ≠ (some (.error e₀), []))
      ∧ eng.bindPat r'.item.arg_pat f.reverse = (some (.error e'), [])
      ∧ form eng n st f = .err e' := by
  obtain ⟨pre, r', e', post, hsplit, hpre, hb', hsel⟩ :=
    selectMatches_err eng f st r e hr hbind
  exact ⟨pre, r', e', post, hsplit, hpre, hb', by simp [form, formAux, hsel]⟩

/-- Witness for the amended bind-error theorem at a concrete engine whose
bind always reports a malformed match with everything consumed. -/
theorem bind_error_propagates_witness :
    ruleK ∈ [ruleK]
    ∧ engErrAll.bindPat ruleK.item.arg_pat ([sym "x" 1].reverse)
        = (some (.error malformedErr), [])
    ∧ ∃ (pre : Rules) (r' : Spanned Rule) (e' : Syntax) (post : Rules),
        [ruleK] = pre ++ r' :: post
        ∧ (∀ q ∈ pre, ∀ e₀,
            engErrAll.bindPat q.item.arg_pat ([sym "x" 1].reverse)
              ≠ (some (.error e₀), []))
        ∧ engErrAll.bindPat r'.item.arg_pat ([sym "x" 1].reverse)
            = (some (.error e'), [])
        ∧ form engErrAll 2 [ruleK] [sym "x" 1] = .err e' :=
  ⟨List.mem_cons_self _ _, rfl,
   bind_error_propagates engErrAll 2 [ruleK] [sym "x" 1] ruleK malformedErr
     (List.mem_cons_self _ _) rfl⟩

/-- Counterexample to claim C3 as stated: the engine reports a
matched-but-malformed attempt (`Some(Err(..))`) during candidate selection
over the two-element form but leaves one token unconsumed, and desugaring
then succeeds without propagating that error, because the source tests the
working copy's emptiness before evaluating the binding result. -/
theorem bind_error_not_propagated :
    engSkipErr.bindPat ⟨ArgPat.keyword "m", sp 1⟩ ([sym "x" 4, sym "y" 5].reverse)
      = (some (.error malformedErr), [sym "x" 4])
    ∧ desugar engSkipErr 10
        ⟨AST.block [⟨AST.syntaxRule ⟨ArgPat.keyword "m", sp 1⟩ ⟨AST.data 7, sp 2⟩, sp 3⟩,
                    ⟨AST.form [sym "x" 4, sym "y" 5], sp 6⟩], sp 0⟩
      = .ok ⟨CST.block [⟨CST.block [], sp 3⟩,
              ⟨CST.call ⟨CST.symbol "x", sp 4⟩ ⟨CST.symbol "y", sp 5⟩, sp 6⟩], sp 0⟩ :=
  ⟨rfl, rfl⟩

/-- Destructuring a successful `Outcome.bind`. -/
theorem Outcome.bind_eq_ok {α β : Type} {x : Outcome α} {k : α → Outcome β} {b : β}
    (h : x.bind k = .ok b) : ∃ a, x = .ok a ∧ k a = .ok b := by
  cases x with
  | ok a => exact ⟨a, rfl, h⟩
  | err e => exact nomatch h
  | panic m => exact nomatch h
  | fuel => exact nomatch h

/-- The lambda pattern fold distributes over list append. -/
theorem lambdaFold_append (psp : Span) (l₁ l₂ : List (Spanned ASTPattern)) :
    ∀ e, lambdaFold psp (l₁ ++ l₂) e =
      match lambdaFold psp l₁ e with
      | .error er => .error er
      | .ok e' => lambdaFold psp l₂ e' := by
  induction l₁ with
  | nil => intro e; rfl
  | cons p rest ih =>
    intro e
    cases h : cstPatternTryFrom p.item with
    | error m => simp only [List.cons_append, lambdaFold, h]
    | ok cp => simp only [List.cons_append, lambdaFold, h]; exact ih _

/-- The source's reversed-list fold equals the right fold of the spec. -/
theorem lambdaFold_reverse_eq_curry (psp : Span) (ps : List (Spanned ASTPattern)) :
    ∀ e, lambdaFold psp ps.reverse e = currySpec psp ps e := by
  induction ps with
  | nil => intro e; rfl
  | cons p rest ih =>
    intro e
    rw [List.reverse_cons, lambdaFold_append]
    rw [ih e]
    cases hc : currySpec psp rest e with
    | error er => simp only [currySpec, hc]
    | ok e' =>
      simp only [currySpec, hc]
      cases h : cstPatternTryFrom p.item with
      | error m => simp only [lambdaFold, h]
      | ok cp => simp only [lambdaFold, h]

/-- Claim C7: a lambda whose pattern is a `Chain` of patterns desugars to
exactly one nested unary CST lambda per pattern, built by a right fold in
which each wrap's span is the combine of the wrapped pattern's span and the
current expression's span (the `currySpec` companion definition, written
from the spec's words); a non-`Chain` pattern behaves as the one-element
chain `[p]`. -/
theorem lambda_curries :
    (∀ (eng : RuleEngine) (n : Nat) (st : Rules) (ps : List (Spanned ASTPattern))
       (psp : Span) (e : Spanned AST) (s : Span),
      walk eng (n + 1) st ⟨AST.lambda ⟨ASTPattern.chain ps, psp⟩ e, s⟩
        = (walk eng n st e).bind fun ec =>
            match currySpec psp ps ec.1 with
            | .error er => Outcome.err er
            | .ok le => Outcome.ok ((⟨le.item, s⟩ : Spanned CST), ec.2))
    ∧ (∀ (eng : RuleEngine) (n : Nat) (st : Rules) (p : Spanned ASTPattern)
         (e : Spanned AST) (s : Span),
        (∀ c, p.item ≠ ASTPattern.chain c) →
        walk eng (n + 1) st ⟨AST.lambda p e, s⟩
          = walk eng (n + 1) st ⟨AST.lambda ⟨ASTPattern.chain [p], p.span⟩ e, s⟩) := by
  constructor
  · intro eng n st ps psp e s
    have step1 : walk eng (n + 1) st ⟨AST.lambda ⟨ASTPattern.chain ps, psp⟩ e, s⟩
        = ((walk eng n st e).bind fun ec =>
            match lambdaFold psp ps.reverse ec.1 with
            | .error er => Outcome.err er
            | .ok le => Outcome.ok (le.item, ec.2)).bind fun p =>
              Outcome.ok ((⟨p.1, s⟩ : Spanned CST), p.2) := rfl
    rw [step1]
    simp only [lambdaFold_reverse_eq_curry]
    cases walk eng n st e with
    | ok a =>
      simp only [Outcome.bind_ok]
      cases hc : currySpec psp ps a.1 <;> simp only [hc] <;> rfl
    | err e' => rfl
    | panic m => rfl
    | fuel => rfl
  · intro eng n st p e s hp
    have harg : (match p.item with
        | ASTPattern.chain c => c
        | _ => [p]) = [p] := by
      cases hp' : p.item with
      | chain c => exact absurd hp' (hp c)
      | symbol nm => rfl
      | data d => rfl
    have step1 : walk eng (n + 1) st ⟨AST.lambda p e, s⟩
        = ((walk eng n st e).bind fun ec =>
            match lambdaFold p.span ((match p.item with
              | ASTPattern.chain c => c
              | _ => [p]).reverse) ec.1 with
            | .error er => Outcome.err er
            | .ok le => Outcome.ok (le.item, ec.2)).bind fun q =>
              Outcome.ok ((⟨q.1, s⟩ : Spanned CST), q.2) := rfl
    rw [step1, harg]
    rfl

/-- Witness for the currying theorem: a non-`Chain` pattern at a concrete
lambda reduces to the one-element chain. -/
theorem lambda_curries_witness :
    (∀ c, (⟨ASTPattern.symbol "x", sp 1⟩ : Spanned ASTPattern).item ≠ ASTPattern.chain c)
    ∧ walk engTriv 3 [] ⟨AST.lambda ⟨ASTPattern.symbol "x", sp 1⟩ ⟨AST.data 5, sp 2⟩, sp 0⟩
        = walk engTriv 3 []
            ⟨AST.lambda ⟨ASTPattern.chain [⟨ASTPattern.symbol "x", sp 1⟩], sp 1⟩
              ⟨AST.data 5, sp 2⟩, sp 0⟩ :=
  ⟨(fun _ h => nomatch h),
   lambda_curries.2 engTriv 2 [] ⟨ASTPattern.symbol "x", sp 1⟩ ⟨AST.data 5, sp 2⟩ (sp 0)
     (fun _ h => nomatch h)⟩

/-- The block loop only ever appends to the rule list, provided the walker
it drives does. -/
theorem walkListAux_ext (wk : Rules → Spanned AST → Outcome (Spanned CST × Rules))
    (hwk : ∀ st a p, wk st a = .ok p → ∃ ext, p.2 = st ++ ext) :
    ∀ (es : List (Spanned AST)) (st : Rules) (p : List (Spanned CST) × Rules),
      walkListAux wk st es = .ok p → ∃ ext, p.2 = st ++ ext := by
  intro es
  induction es with
  | nil =>
    intro st p h
    injection h with h'
    subst h'
    exact ⟨[], by simp⟩
  | cons e es ih =>
    intro st p h
    rw [walkListAux] at h
    obtain ⟨c, hc, h⟩ := Outcome.bind_eq_ok h
    obtain ⟨cs, hcs, h⟩ := Outcome.bind_eq_ok h
    injection h with h'
    subst h'
    obtain ⟨e1, he1⟩ := hwk st e c hc
    obtain ⟨e2, he2⟩ := ih c.2 cs hcs
    exact ⟨e1 ++ e2, by rw [he2, he1, List.append_assoc]⟩

/-- The call builder only ever appends to the rule list, provided the walker
it drives does. -/
theorem callRevAux_ext (wk : Rules → Spanned AST → Outcome (Spanned CST × Rules))
    (hwk : ∀ st a p, wk st a = .ok p → ∃ ext, p.2 = st ++ ext) :
    ∀ (g : List (Spanned AST)) (st : Rules) (p : CST × Rules),
      callRevAux wk st g = .ok p → ∃ ext, p.2 = st ++ ext := by
  intro g
  induction g with
  | nil => intro st p h; exact nomatch h
  | cons x xs ih =>
    intro st p h
    match xs, ih with
    | [], _ =>
      rw [callRevAux] at h
      cases hx : x.item <;> rw [hx] at h
      case symbol nm =>
        injection h with h'
        subst h'
        exact ⟨[], by simp⟩
      all_goals exact nomatch h
    | [fn], _ =>
      rw [callRevAux] at h
      obtain ⟨fc, hfc, h⟩ := Outcome.bind_eq_ok h
      obtain ⟨ac, hac, h⟩ := Outcome.bind_eq_ok h
      injection h with h'
      subst h'
      obtain ⟨e1, he1⟩ := hwk st fn fc hfc
      obtain ⟨e2, he2⟩ := hwk fc.2 x ac hac
      exact ⟨e1 ++ e2, by rw [he2, he1, List.append_assoc]⟩
    | y :: z :: rest, ih =>
      rw [callRevAux] at h
      obtain ⟨ac, hac, h⟩ := Outcome.bind_eq_ok h
      obtain ⟨pc, hpc, h⟩ := Outcome.bind_eq_ok h
      injection h with h'
      subst h'
      obtain ⟨e1, he1⟩ := hwk st x ac hac
      obtain ⟨e2, he2⟩ := ih ac.2 pc hpc
      exact ⟨e1 ++ e2, by rw [he2, he1, List.append_assoc]⟩

/-- The form reducer only ever appends to the rule list, provided the walker
it drives does. -/
theorem formAux_ext (eng : RuleEngine)
    (wk : Rules → Spanned AST → Outcome (Spanned CST × Rules))
    (hwk : ∀ st a p, wk st a = .ok p → ∃ ext, p.2 = st ++ ext)
    (st : Rules) (f : List (Spanned AST)) (p : CST × Rules)
    (h : formAux eng wk st f = .ok p) : ∃ ext, p.2 = st ++ ext := by
  cases hsel : selectMatches eng f st with
  | error e => simp only [formAux, hsel] at h; exact nomatch h
  | ok ms =>
    simp only [formAux, hsel] at h
    by_cases h0 : ms.length = 0
    · rw [if_pos h0] at h
      exact callRevAux_ext wk hwk f.reverse st p h
    · rw [if_neg h0] at h
      by_cases h1 : ms.length > 1
      · rw [if_pos h1] at h; exact nomatch h
      · rw [if_neg h1] at h
        cases hl : ms.getLast? with
        | none => rw [hl] at h; exact nomatch h
        | some rb =>
          rw [hl] at h
          obtain ⟨rule, bindings⟩ := rb
          dsimp only at h
          cases hex : eng.expand rule.item.tree bindings with
          | error e => rw [hex] at h; exact nomatch h
          | ok expanded =>
            rw [hex] at h
            obtain ⟨q, hq, h⟩ := Outcome.bind_eq_ok h
            injection h with h'
            subst h'
            exact hwk st expanded q hq

/-- The rule list is append-only across a successful walk: the only mutation
of the transformer state (`desugar.rs` line 189) pushes at the end. -/
theorem walk_ext (eng : RuleEngine) :
    ∀ (n : Nat) (st : Rules) (a : Spanned AST) (p : Spanned CST × Rules),
      walk eng n st a = .ok p → ∃ ext, p.2 = st ++ ext := by
  intro n
  induction n with
  | zero => intro st a p h; exact nomatch h
  | succ n ih =>
    intro st a p h
    obtain ⟨q, hq, h⟩ := Outcome.bind_eq_ok h
    injection h with h'
    subst h'
    cases ha : a.item <;> rw [ha] at hq <;> dsimp only at hq
    case symbol nm =>
      exact formAux_ext eng (walk eng n) (fun st a p h => ih st a p h) st [a] q hq
    case data d =>
      injection hq with hq'
      subst hq'
      exact ⟨[], by simp⟩
    case block b =>
      obtain ⟨cs, hcs, hq⟩ := Outcome.bind_eq_ok hq
      injection hq with hq'
      subst hq'
      exact walkListAux_ext (walk eng n) (fun st a p h => ih st a p h) b st cs hcs
    case form f =>
      exact formAux_ext eng (walk eng n) (fun st a p h => ih st a p h) st f q hq
    case composition argument function =>
      obtain ⟨fc, hfc, hq⟩ := Outcome.bind_eq_ok hq
      obtain ⟨ac, hac, hq⟩ := Outcome.bind_eq_ok hq
      injection hq with hq'
      subst hq'
      obtain ⟨e1, he1⟩ := ih st function fc hfc
      obtain ⟨e2, he2⟩ := ih fc.2 argument ac hac
      exact ⟨e1 ++ e2, by rw [he2, he1, List.append_assoc]⟩
    case pattern pt => exact nomatch hq
    case argPat pt => exact nomatch hq
    case syntaxRule ap expr =>
      cases hnew : eng.new ap expr with
      | error e => rw [hnew] at hq; exact nomatch hq
      | ok r =>
        rw [hnew] at hq
        injection hq with hq'
        subst hq'
        exact ⟨[⟨r, ap.span⟩], rfl⟩
    case assign pat expr =>
      cases hp : cstPatternTryFrom pat.item with
      | error m => rw [hp] at hq; exact nomatch hq
      | ok cp =>
        rw [hp] at hq
        obtain ⟨ec, hec, hq⟩ := Outcome.bind_eq_ok hq
        injection hq with hq'
        subst hq'
        exact ih st expr ec hec
    case lambda pat expr =>
      obtain ⟨ec, hec, hq⟩ := Outcome.bind_eq_ok hq
      cases hlf : lambdaFold pat.span ((match pat.item with
          | ASTPattern.chain c => c
          | _ => [pat]).reverse) ec.1 with
      | error e => rw [hlf] at hq; exact nomatch hq
      | ok le =>
        rw [hlf] at hq
        injection hq with hq'
        subst hq'
        exact ih st expr ec hec
    case print e =>
      obtain ⟨c, hc, hq⟩ := Outcome.bind_eq_ok hq
      injection hq with hq'
      subst hq'
      exact ih st e c hc
    case label nm e =>
      obtain ⟨c, hc, hq⟩ := Outcome.bind_eq_ok hq
      injection hq with hq'
      subst hq'
      exact ih st e c hc

/-- Walking a block's elements decomposes over append: the suffix is walked
from the state the prefix produced. -/
theorem Outcome.bind_pair_eta {α β : Type} (x : Outcome (α × β)) :
    (x.bind fun q => Outcome.ok (q.1, q.2)) = x := by
  cases x <;> rfl

theorem walkListAux_append (wk : Rules → Spanned AST → Outcome (Spanned CST × Rules))
    (xs ys : List (Spanned AST)) :
    ∀ st, walkListAux wk st (xs ++ ys)
      = (walkListAux wk st xs).bind fun p =>
          (walkListAux wk p.2 ys).bind fun q => .ok (p.1 ++ q.1, q.2) := by
  induction xs with
  | nil =>
    intro st
    exact (Outcome.bind_pair_eta (walkListAux wk st ys)).symm
  | cons e es ih =>
    intro st
    simp only [List.cons_append, walkListAux, Outcome.bind_assoc, List.append_eq]
    cases wk st e with
    | ok c =>
      simp only [Outcome.bind_ok]
      rw [ih c.2]
      simp only [Outcome.bind_assoc]
      cases walkListAux wk c.2 es with
      | ok cs =>
        simp only [Outcome.bind_ok]
        cases walkListAux wk cs.2 ys with
        | ok q => rfl
        | err e' => rfl
        | panic m => rfl
        | fuel => rfl
      | err e' => rfl
      | panic m => rfl
      | fuel => rfl
    | err e' => rfl
    | panic m => rfl
    | fuel => rfl

/-- Claim C4 (amended): inside a block the children are walked in source
order with the rule state threaded left to right — walking `xs ++ ys` walks
`xs` from the incoming state and `ys` from the state `xs` produced — and a
successful walk only ever appends to the rule list; hence a rule defined in
block child `j` is in scope for children after `j` and cannot affect
children before `j`.  Multi-element forms and compositions, however, do NOT
walk their children in source order (see the counterexample). -/
theorem block_scope_order :
    (∀ (eng : RuleEngine) (n : Nat) (st : Rules) (xs ys : List (Spanned AST)),
      walkList eng n st (xs ++ ys)
        = (walkList eng n st xs).bind fun p =>
            (walkList eng n p.2 ys).bind fun q => .ok (p.1 ++ q.1, q.2))
    ∧ (∀ (eng : RuleEngine) (n : Nat) (st : Rules) (a : Spanned AST)
         (p : Spanned CST × Rules),
        walk eng n st a = .ok p → ∃ ext, p.2 = st ++ ext) :=
  ⟨fun eng n st xs ys => walkListAux_append (walk eng n) xs ys st,
   fun eng n st a p h => walk_ext eng n st a p h⟩

/-- Witness for the block-scope theorem at a concrete rule definition and a
concrete two-element block split. -/
theorem block_scope_order_witness :
    walk engTriv 1 [] synK = .ok (⟨CST.block [], sp 3⟩, [ruleK])
    ∧ (∃ ext, [ruleK] = [] ++ ext)
    ∧ walkList engTriv 2 [] ([synK] ++ [sym "k" 4])
        = (walkList engTriv 2 [] [synK]).bind fun p =>
            (walkList engTriv 2 p.2 [sym "k" 4]).bind fun q => .ok (p.1 ++ q.1, q.2) :=
  ⟨rfl,
   block_scope_order.2 engTriv 1 [] synK (⟨CST.block [], sp 3⟩, [ruleK]) rfl,
   block_scope_order.1 engTriv 2 [] [synK] [sym "k" 4]⟩

/-- Counterexample to claim C4 as stated: in a three-element form reduced as
a call, the call builder walks the LAST element first, so the rule defined
inside child 3 is already in scope when child 1 is walked: the bare `k` in
child 1 expands to `Data 7` instead of remaining `Symbol k`. -/
theorem form_scope_order_violated :
    desugar engNullary 10
      ⟨AST.form [sym "k" 1, sym "x" 2,
                 ⟨AST.block [⟨AST.syntaxRule ⟨ArgPat.keyword "k", sp 5⟩
                               ⟨AST.data 7, sp 6⟩, sp 7⟩], sp 8⟩], sp 0⟩
      = .ok ⟨CST.call
              ⟨CST.call ⟨CST.data 7, sp 1⟩ ⟨CST.symbol "x", sp 2⟩, Span.join [sp 1, sp 2]⟩
              ⟨CST.block [⟨CST.block [], sp 7⟩], sp 8⟩, sp 0⟩
    ∧ (⟨CST.data 7, sp 1⟩ : Spanned CST) ≠ ⟨CST.symbol "k", sp 1⟩ := by
  refine ⟨rfl, ?_⟩
  intro h
  injection h with h1 _
  exact nomatch h1

/-- Unfolding the left-association builder at a reversed list of two or
more pairs. -/
theorem assembleCallRev_cons (p : Span × Spanned CST) (l : List (Span × Spanned CST))
    (hl : l ≠ []) :
    assembleCallRev (p :: l)
      = CST.call ⟨assembleCallRev l, Span.join ((l.reverse).map Prod.fst)⟩ p.2 := by
  cases l with
  | nil => exact absurd rfl hl
  | cons q rest => rfl

/-- A successful element walk returns one CST per form element. -/
theorem walkElemsRev_length (wk : Rules → Spanned AST → Outcome (Spanned CST × Rules)) :
    ∀ (g : List (Spanned AST)) (st : Rules) (p : List (Spanned CST) × Rules),
      walkElemsRev wk st g = .ok p → p.1.length = g.length := by
  intro g
  induction g with
  | nil =>
    intro st p h
    injection h with h'
    subst h'
    rfl
  | cons x xs ih =>
    intro st p h
    match xs, ih with
    | [], _ =>
      rw [walkElemsRev] at h
      obtain ⟨c, _, h⟩ := Outcome.bind_eq_ok h
      injection h with h'
      subst h'
      rfl
    | [fn], _ =>
      rw [walkElemsRev] at h
      obtain ⟨fc, _, h⟩ := Outcome.bind_eq_ok h
      obtain ⟨ac, _, h⟩ := Outcome.bind_eq_ok h
      injection h with h'
      subst h'
      rfl
    | y :: z :: restl, ih =>
      rw [walkElemsRev] at h
      obtain ⟨ac, hac, h⟩ := Outcome.bind_eq_ok h
      obtain ⟨cs, hcs, h⟩ := Outcome.bind_eq_ok h
      injection h with h'
      subst h'
      have hl := ih ac.2 cs hcs
      simp [hl]

/-- One step of the left-association assembly: appending the walked last
element wraps the assembled prefix in one more `Call` whose prefix node
spans the `join` of the prefix elements' source spans. -/
theorem assembleCallRev_step (x : Spanned AST) (l : List (Spanned AST))
    (c : Spanned CST) (cs : List (Spanned CST))
    (hlen : cs.length = l.length) (hne : l ≠ []) :
    assembleCallRev (((x :: l).map fun e => e.span).zip ((cs ++ [c]).reverse))
      = CST.call
          ⟨assembleCallRev ((l.map fun e => e.span).zip cs.reverse),
           Span.join ((l.reverse).map fun e => e.span)⟩ c := by
  have hrev : (cs ++ [c]).reverse = c :: cs.reverse := by simp
  rw [hrev, List.map_cons, List.zip_cons_cons]
  have hne' : ((l.map fun e => e.span).zip cs.reverse) ≠ [] := by
    have hpos : 0 < ((l.map fun e => e.span).zip cs.reverse).length := by
      simp only [List.length_zip, List.length_map, List.length_reverse, hlen, Nat.min_self]
      exact List.length_pos.mpr hne
    exact List.length_pos.mp hpos
  rw [assembleCallRev_cons _ _ hne']
  have hfst : ((l.map fun e => e.span).zip cs.reverse).map Prod.fst
      = l.map fun e => e.span := List.map_fst_zip _ _ (by simp [hlen])
  conv_lhs => rw [List.map_reverse, hfst]
  rw [List.map_reverse]

/-- The call builder on the reversed form separates into walking the
elements (in the builder's visiting order) and assembling the
left-association, provided the walker stamps each result with its input's
span. -/
theorem callRevAux_spec (wk : Rules → Spanned AST → Outcome (Spanned CST × Rules))
    (hwk_span : ∀ st a p, wk st a = .ok p → p.1.span = a.span) :
    ∀ (g : List (Spanned AST)), 2 ≤ g.length → ∀ (st : Rules),
      callRevAux wk st g
        = (walkElemsRev wk st g).bind fun p =>
            .ok (assembleCallRev ((g.map fun e => e.span).zip p.1.reverse), p.2) := by
  intro g
  induction g with
  | nil => intro h; exact absurd h (by decide)
  | cons x xs ih =>
    intro hlen st
    match xs, hlen, ih with
    | [], hlen, _ => simp at hlen
    | [fn], _, _ =>
      simp only [callRevAux, walkElemsRev]
      cases hfc : wk st fn with
      | ok fc =>
        simp only [hfc, Outcome.bind_ok]
        cases hac : wk fc.2 x with
        | ok ac =>
          simp only [hac, Outcome.bind_ok]
          have hfc1 : fc.1 = ⟨fc.1.item, fn.span⟩ := by
            rw [← hwk_span st fn fc hfc]
          rw [hfc1]
          rfl
        | err e => rfl
        | panic m => rfl
        | fuel => rfl
      | err e => rfl
      | panic m => rfl
      | fuel => rfl
    | y :: z :: restl, _, ih =>
      simp only [callRevAux, walkElemsRev]
      cases hac : wk st x with
      | ok ac =>
        simp only [hac, Outcome.bind_ok]
        rw [ih (by simp) ac.2]
        cases hcs : walkElemsRev wk ac.2 (y :: z :: restl) with
        | ok cs =>
          simp only [hcs, Outcome.bind_ok]
          have hlen2 : cs.1.length = (y :: z :: restl).length :=
            walkElemsRev_length wk (y :: z :: restl) ac.2 cs hcs
          rw [assembleCallRev_step x (y :: z :: restl) ac.1 cs.1 hlen2 (by simp)]
        | err e => rfl
        | panic m => rfl
        | fuel => rfl
      | err e => rfl
      | panic m => rfl
      | fuel => rfl

/-- Claim C5: for a form of at least two nodes reduced as a plain call, the
call builder walks the elements (in its visiting order) and returns their
strict left-association into nested binary `Call` nodes, each synthetic
prefix node's span being the `join` of the prefix elements' source spans;
in particular the four-symbol form `[a, b, c, d]` yields
`Call(Call(Call(Symbol a, Symbol b), Symbol c), Symbol d)`. -/
theorem call_left_association :
    (∀ (eng : RuleEngine) (n : Nat) (st : Rules) (f : List (Spanned AST)),
      2 ≤ f.length →
      call eng n st f
        = (walkCallElems (walk eng n) st f).bind fun p =>
            .ok (assembleCallRev ((f.reverse.map fun e => e.span).zip p.1.reverse), p.2))
    ∧ desugar engTriv 5 ⟨AST.form [sym "a" 1, sym "b" 2, sym "c" 3, sym "d" 4], sp 0⟩
        = .ok ⟨CST.call
            ⟨CST.call ⟨CST.call ⟨CST.symbol "a", sp 1⟩ ⟨CST.symbol "b", sp 2⟩,
               Span.join [sp 1, sp 2]⟩
              ⟨CST.symbol "c", sp 3⟩, Span.join [sp 1, sp 2, sp 3]⟩
            ⟨CST.symbol "d", sp 4⟩, sp 0⟩ := by
  constructor
  · intro eng n st f hlen
    exact callRevAux_spec (walk eng n) (fun st a p h => walk_span eng n st a p h)
      f.reverse (by simpa using hlen) st
  · rfl

/-- Witness for the call-association theorem at a concrete two-symbol
form. -/
theorem call_left_association_witness :
    2 ≤ ([sym "a" 1, sym "b" 2] : List (Spanned AST)).length
    ∧ call engTriv 3 [] [sym "a" 1, sym "b" 2]
        = (walkCallElems (walk engTriv 3) [] [sym "a" 1, sym "b" 2]).bind fun p =>
            .ok (assembleCallRev
                  (([sym "a" 1, sym "b" 2].reverse.map fun e => e.span).zip p.1.reverse),
                 p.2) :=
  ⟨by decide, call_left_association.1 engTriv 3 [] [sym "a" 1, sym "b" 2] (by decide)⟩

/-- Claim C10: the call builder is not total at the public interface: the
well-formed input `Form([Data 0])` matches no rule, falls through to the
call builder's length-1 non-symbol branch and panics, so `desugar` panics
rather than returning a `Syntax` error; the length-0 branch is likewise a
panic. -/
theorem call_builder_panics :
    desugar engTriv 3 ⟨AST.form [⟨AST.data 0, sp 1⟩], sp 0⟩
      = .panic "A non-symbol call of length 1 is can not be constructed"
    ∧ (∀ (wk : Rules → Spanned AST → Outcome (Spanned CST × Rules)) (st : Rules),
        callAux wk st []
          = .panic "A call must have at least two values - a function and an expression")
    ∧ (∀ (e : Syntax) (m : String), (Outcome.panic m : Outcome (Spanned CST)) ≠ .err e) :=
  ⟨rfl, fun _ _ => rfl, fun _ _ h => nomatch h⟩

end Passerine
